import Mathlib

/-!
Verification development for the `zipper-stack` RISC-V emulator crate.

The crate's root file (`src/lib.rs`) defines the `Emulator` driver: the
test-mode run loop (`run_test`), the ELF program loader (`setup_program`),
and the small glue around the CPU.  The CPU, MMU and flat memory store live
in submodules (`cpu.rs`, `mmu.rs`, `memory.rs`) that are not part of this
repository snapshot; the few operations of theirs that the driver calls
(`tick`, `load_word_raw`, `store_raw`, `init_memory`, `update_xlen`,
`update_pc`) are modelled from the specification and clearly marked below.

Machine integers (`u64`, `usize`) are modelled as `Nat`; all values parsed
from the image are bounded by `2^64` by construction, and the additions the
loader performs never approach the wrap-around range for well-formed inputs.
A Rust panic (explicit `panic!` or an out-of-bounds `Vec` index) is modelled
as an `Except.error` value of type `SetupError`.
-/

namespace Zipper

/-- Constant `TEST_MEMORY_CAPACITY` from `lib.rs`: `1024 * 512`. -/
def TEST_MEMORY_CAPACITY : Nat := 1024 * 512

/-- Constant `PROGRAM_MEMORY_CAPACITY` from `lib.rs`: `1024 * 1024 * 128`. -/
def PROGRAM_MEMORY_CAPACITY : Nat := 1024 * 1024 * 128

/-- The ways `setup_program` can abort: the explicit `panic!` for a bad ELF
magic, the explicit `panic!` for an unknown `e_class`, and a panic caused by
an out-of-bounds `Vec` index. -/
inductive SetupError where
  | notElf
  | unknownClass
  | indexOOB
deriving DecidableEq, Repr

/-- Indexing `data[i]` on a Rust `Vec<u8>`: the byte, or an index panic. -/
def readByte (data : List Nat) (i : Nat) : Except SetupError Nat :=
  match data.get? i with
  | some b => Except.ok b
  | none => Except.error SetupError.indexOOB

/-- The repeated little-endian accumulation loop of `setup_program`:
`for i in 0..n { v |= (data[offset] as u64) << (8 * i); offset += 1; }`. -/
def readLE (data : List Nat) : Nat → Nat → Except SetupError Nat
  | _, 0 => Except.ok 0
  | off, n + 1 => do
    let b ← readByte data off
    let rest ← readLE data (off + 1) n
    Except.ok (b + 256 * rest)

/-- ELF section header, as in `lib.rs` (`struct SectionHeader`). -/
structure SectionHeader where
  sh_name : Nat
  sh_type : Nat
  sh_flags : Nat
  sh_addr : Nat
  sh_offset : Nat
  sh_size : Nat
  sh_link : Nat
  sh_info : Nat
  sh_addralign : Nat
  sh_entsize : Nat
deriving DecidableEq, Repr

/-- One iteration of the section-header parsing loop in `setup_program`:
ten fields, each read little-endian; `w8` is `e_width / 8` (4 or 8). -/
def parseSectionHeader (data : List Nat) (off w8 : Nat) :
    Except SetupError SectionHeader := do
  let nm ← readLE data off 4
  let ty ← readLE data (off + 4) 4
  let fl ← readLE data (off + 8) w8
  let ad ← readLE data (off + 8 + w8) w8
  let os ← readLE data (off + 8 + 2 * w8) w8
  let sz ← readLE data (off + 8 + 3 * w8) w8
  let lk ← readLE data (off + 8 + 4 * w8) 4
  let inf ← readLE data (off + 12 + 4 * w8) 4
  let al ← readLE data (off + 16 + 4 * w8) w8
  let es ← readLE data (off + 16 + 5 * w8) w8
  Except.ok ⟨nm, ty, fl, ad, os, sz, lk, inf, al, es⟩

/-- The section-header loop of `setup_program`: `e_shnum` consecutive
headers starting at file offset `e_shoff`, each of size `16 + 6 * w8`. -/
def parseSectionHeaders (data : List Nat) (w8 : Nat) :
    Nat → Nat → Except SetupError (List SectionHeader)
  | _, 0 => Except.ok []
  | off, n + 1 => do
    let sh ← parseSectionHeader data off w8
    let rest ← parseSectionHeaders data w8 (off + (16 + 6 * w8)) n
    Except.ok (sh :: rest)

/-- Result of parsing the ELF header and the section-header table. -/
structure ElfInfo where
  width8 : Nat
  e_entry : Nat
  e_shoff : Nat
  e_shnum : Nat
  sections : List SectionHeader
deriving DecidableEq, Repr

/-- The ELF-header analysis of `setup_program` (`lib.rs` lines 150-246 and
350-445), field by field in source order.  The magic check short-circuits
exactly as `data[0] != 0x7f || data[1] != 0x45 || ...` does; every field the
source reads and discards is still read here so that the bounds behaviour
matches. -/
def parseElf (data : List Nat) : Except SetupError ElfInfo := do
  let b0 ← readByte data 0
  if b0 ≠ 0x7f then Except.error SetupError.notElf else do
  let b1 ← readByte data 1
  if b1 ≠ 0x45 then Except.error SetupError.notElf else do
  let b2 ← readByte data 2
  if b2 ≠ 0x4c then Except.error SetupError.notElf else do
  let b3 ← readByte data 3
  if b3 ≠ 0x46 then Except.error SetupError.notElf else do
  let eClass ← readByte data 4
  let w8 ← (match eClass with
    | 1 => Except.ok 4
    | 2 => Except.ok 8
    | _ => Except.error SetupError.unknownClass)
  let _eEndian ← readByte data 5
  let _eElfVersion ← readByte data 6
  let _eOsabi ← readByte data 7
  let _eAbiVersion ← readByte data 8
  let _eType ← readLE data 0x10 2
  let _eMachine ← readLE data 0x12 2
  let _eVersion ← readLE data 0x14 4
  let eEntry ← readLE data 0x18 w8
  let _ePhoff ← readLE data (0x18 + w8) w8
  let eShoff ← readLE data (0x18 + 2 * w8) w8
  let _eFlags ← readLE data (0x18 + 3 * w8) 4
  let _eEhsize ← readLE data (0x1c + 3 * w8) 2
  let _ePhentsize ← readLE data (0x1e + 3 * w8) 2
  let _ePhnum ← readLE data (0x20 + 3 * w8) 2
  let _eShentsize ← readLE data (0x22 + 3 * w8) 2
  let eShnum ← readLE data (0x24 + 3 * w8) 2
  let _eShstrndx ← readLE data (0x26 + 3 * w8) 2
  let shs ← parseSectionHeaders data w8 eShoff eShnum
  Except.ok ⟨w8, eEntry, eShoff, eShnum, shs⟩

/-- The bytes of `".tohost\0"` (`tohost_values` in `setup_program`). -/
def tohostBytes : List Nat := [0x2e, 0x74, 0x6f, 0x68, 0x6f, 0x73, 0x74, 0x00]

/-- The innermost loop of the `.tohost` scan: compare the bytes at file
offsets `base + k`, `base + k + 1`, ... against the remaining expected
bytes, where `base = sh_offset + sh_name` of the candidate pair and
`limit = sh_offset + sh_size` is the string table's extent.  The extent
test comes before the index, exactly as the `||` in the source
short-circuits. -/
def matchBytes (data : List Nat) (base limit : Nat) :
    Nat → List Nat → Except SetupError Bool
  | _, [] => Except.ok true
  | k, t :: ts =>
    if base + k ≥ limit then Except.ok false
    else do
      let b ← readByte data (base + k)
      if b ≠ t then Except.ok false
      else matchBytes data base limit (k + 1) ts

/-- The middle loop of the `.tohost` scan: try every string-table section
for one program-data section, updating the running `tohost_addr` on each
hit (the source keeps scanning the remaining string tables). -/
def scanStrs (data : List Nat) (shAddr nameOff : Nat) :
    Nat → List SectionHeader → Except SetupError Nat
  | acc, [] => Except.ok acc
  | acc, st :: rest => do
    let f ← matchBytes data (st.sh_offset + nameOff) (st.sh_offset + st.sh_size)
      0 tohostBytes
    scanStrs data shAddr nameOff (if f then shAddr else acc) rest

/-- The outer loop of the `.tohost` scan: walk the program-data sections,
breaking as soon as the running `tohost_addr` is non-zero. -/
def scanProgs (data : List Nat) (strs : List SectionHeader) :
    Nat → List SectionHeader → Except SetupError Nat
  | acc, [] => Except.ok acc
  | acc, p :: rest => do
    let a ← scanStrs data p.sh_addr p.sh_name acc strs
    if a ≠ 0 then Except.ok a else scanProgs data strs a rest

/-- Modelled from the spec: the MMU / flat memory store (`mmu.rs`,
`memory.rs` are not in this snapshot).  Per §4.4 the store owns the RAM
byte array sized at construction; we record the configured capacity and the
ordered log of raw byte stores the loader issued. -/
structure Mmu where
  memCapacity : Nat
  stores : List (Nat × Nat)
deriving DecidableEq, Repr

/-- Modelled from the spec: `init_memory` allocates the RAM byte array at
the given capacity (§4.4, "sized at construction"), discarding prior
content. -/
def Mmu.init_memory (_m : Mmu) (cap : Nat) : Mmu :=
  { memCapacity := cap, stores := [] }

/-- Modelled from the spec: `store_raw` is the raw (unchecked) single-byte
store used only by the loader (§4.4, §9). -/
def Mmu.store_raw (m : Mmu) (addr v : Nat) : Mmu :=
  { m with stores := m.stores ++ [(addr, v)] }

/-- Modelled from the spec: the byte currently at a physical address —
the last raw store to that address, or `0` in freshly allocated RAM.
Stored values are bytes (`u8`), hence the reduction mod 256. -/
def Mmu.memByte (m : Mmu) (addr : Nat) : Nat :=
  (((m.stores.reverse.find? (fun p => p.1 == addr)).map Prod.snd).getD 0) % 256

/-- Modelled from the spec: `load_word_raw` reads a 32-bit word as four
little-endian bytes through the raw path (§4.4, checked/raw little-endian
multi-width accessors). -/
def Mmu.load_word_raw (m : Mmu) (addr : Nat) : Nat :=
  m.memByte addr + 256 * m.memByte (addr + 1)
    + 65536 * m.memByte (addr + 2) + 16777216 * m.memByte (addr + 3)

/-- The `cpu::Xlen` mode flag. -/
inductive Xlen where
  | Bit32
  | Bit64
deriving DecidableEq, Repr

/-- Modelled from the spec: the CPU state visible to the driver (`cpu.rs`
is not in this snapshot) — the XLEN mode flag, the program counter, and the
MMU it owns (§2, §3).  `update_xlen` and `update_pc` set the corresponding
fields. -/
structure Cpu where
  xlen : Xlen
  pc : Nat
  mmu : Mmu
deriving DecidableEq, Repr

/-- The `Emulator` struct of `lib.rs`: the CPU plus the riscv-tests
properties `is_test` and `tohost_addr`. -/
structure Emulator where
  cpu : Cpu
  is_test : Bool
  tohost_addr : Nat
deriving DecidableEq, Repr

/-- The section-copy loop body of `setup_program`:
`for j in 0..sh_size { store_raw(sh_addr + j, data[sh_offset + j]) }`,
expressed with the current index `j` and the remaining count. -/
def copyRange (data : List Nat) (shAddr shOffset : Nat) :
    Mmu → Nat → Nat → Except SetupError Mmu
  | m, _, 0 => Except.ok m
  | m, j, c + 1 => do
    let b ← readByte data (shOffset + j)
    copyRange data shAddr shOffset (m.store_raw (shAddr + j) b) (j + 1) c

/-- The section-copy loop of `setup_program` over the program-data section
headers: a section is copied only when
`sh_addr >= 0x80000000 && sh_offset > 0 && sh_size > 0`. -/
def copySections (data : List Nat) :
    Mmu → List SectionHeader → Except SetupError Mmu
  | m, [] => Except.ok m
  | m, p :: rest => do
    let m2 ← if p.sh_addr ≥ 0x80000000 ∧ 0 < p.sh_offset ∧ 0 < p.sh_size
      then copyRange data p.sh_addr p.sh_offset m 0 p.sh_size
      else Except.ok m
    copySections data m2 rest

/-- The program-data section headers (`sh_type == 1`), in table order. -/
def progSections (l : List SectionHeader) : List SectionHeader :=
  l.filter (fun s => s.sh_type == 1)

/-- The string-table section headers (`sh_type == 3`), in table order. -/
def strSections (l : List SectionHeader) : List SectionHeader :=
  l.filter (fun s => s.sh_type == 3)

/-- Method `Emulator::setup_program` (`lib.rs` lines 147-506): parse the ELF
header and section headers, scan for a `.tohost` program-data section,
configure XLEN, size memory by test-mode detection, copy the qualifying
sections into physical memory through the raw path, and set the program
counter to the entry point. -/
def Emulator.setup_program (emu : Emulator) (data : List Nat) :
    Except SetupError Emulator := do
  let info ← parseElf data
  let progs := progSections info.sections
  let strs := strSections info.sections
  let t ← scanProgs data strs 0 progs
  let cap := if t ≠ 0 then TEST_MEMORY_CAPACITY else PROGRAM_MEMORY_CAPACITY
  let mmu0 := emu.cpu.mmu.init_memory cap
  let mmu ← copySections data mmu0 progs
  Except.ok
    { cpu :=
        { xlen := if info.width8 == 4 then Xlen.Bit32 else Xlen.Bit64
          pc := info.e_entry
          mmu := mmu }
      is_test := t != 0
      tohost_addr := t }

/-- The pass/fail report `run_test` prints when a non-zero end code is
observed: code `1` means pass, anything else means fail. -/
inductive TestResult where
  | passed (code : Nat)
  | failed (code : Nat)
deriving DecidableEq, Repr

/-- Method `Emulator::tick` delegates to `cpu.tick()`.  `cpu.rs` is not in this
snapshot, so the one-instruction CPU step (§4.1) is taken as a parameter
acting on the CPU alone; the driver-level fields are untouched, as in the
source. -/
def Emulator.tickWith (f : Cpu → Cpu) (e : Emulator) : Emulator :=
  { e with cpu := f e.cpu }

/-- Method `Emulator::run_test` (`lib.rs` lines 93-122), with explicit fuel since
the source loop need not terminate: each iteration ticks the CPU once, then
reads the word at `tohost_addr` through the raw load path; on a non-zero
end code it reports pass (code 1) or fail (other codes) and stops.  The
returned triple is the number of ticks executed, the final state, and the
report.  (The per-instruction disassembly dump to the terminal is not
modelled.) -/
def runTest (f : Cpu → Cpu) : Nat → Emulator → Option (Nat × Emulator × TestResult)
  | 0, _ => none
  | fuel + 1, e =>
    let e2 := Emulator.tickWith f e
    let endcode := e2.cpu.mmu.load_word_raw e2.tohost_addr
    if endcode ≠ 0 then
      some (1, e2, if endcode = 1 then TestResult.passed endcode
        else TestResult.failed endcode)
    else
      match runTest f fuel e2 with
      | some (n, ef, r) => some (n + 1, ef, r)
      | none => none

/-- Returns `true` on the panic outcomes of `setup_program`. -/
def isErr {α : Type} : Except SetupError α → Bool
  | Except.error _ => true
  | Except.ok _ => false

instance {ε α : Type} [DecidableEq ε] [DecidableEq α] : DecidableEq (Except ε α)
  | Except.error x, Except.error y =>
    decidable_of_iff (x = y)
      ⟨fun h => by rw [h], fun h => by injection h⟩
  | Except.error _, Except.ok _ => Decidable.isFalse (fun h => Except.noConfusion h)
  | Except.ok _, Except.error _ => Decidable.isFalse (fun h => Except.noConfusion h)
  | Except.ok x, Except.ok y =>
    decidable_of_iff (x = y)
      ⟨fun h => by rw [h], fun h => by injection h⟩

/-- A freshly constructed emulator (`Emulator::new` with a default CPU);
every field is overwritten by `setup_program` before use. -/
def emu0 : Emulator :=
  { cpu := { xlen := Xlen.Bit64, pc := 0, mmu := { memCapacity := 0, stores := [] } }
    is_test := false
    tohost_addr := 0 }

/-- A minimal well-formed 32-bit ELF image: magic, class 1, and an
otherwise zero header (no section headers, entry point 0). -/
def dGood : List Nat := [0x7f, 0x45, 0x4c, 0x46, 1] ++ List.replicate 47 0

/-- The emulator state `setup_program` produces from `dGood`. -/
def eGood : Emulator :=
  { cpu := { xlen := Xlen.Bit32, pc := 0
             mmu := { memCapacity := PROGRAM_MEMORY_CAPACITY, stores := [] } }
    is_test := false
    tohost_addr := 0 }

/-- A 32-bit riscv-tests-style image: two section headers at offset 0x34 —
a program-data section (type 1, `sh_addr = 0x80001000`, `sh_name = 0`,
file bytes 0x84..0x8b) and a string table (type 3, `sh_offset = 0x84`,
`sh_size = 9`) whose first entry is `".tohost\0"`; entry point
0x80000000. -/
def dTest : List Nat :=
  [0x7f, 0x45, 0x4c, 0x46, 1, 0, 0, 0, 0, 0, 0, 0, 0, 0, 0, 0]
  ++ [0, 0, 0, 0, 0, 0, 0, 0]
  ++ [0, 0, 0, 0x80]
  ++ [0, 0, 0, 0]
  ++ [0x34, 0, 0, 0]
  ++ [0, 0, 0, 0]
  ++ [0, 0, 0, 0, 0, 0, 0, 0]
  ++ [2, 0]
  ++ [0, 0]
  ++ ([0, 0, 0, 0] ++ [1, 0, 0, 0] ++ [0, 0, 0, 0] ++ [0, 0x10, 0, 0x80]
      ++ [0x84, 0, 0, 0] ++ [8, 0, 0, 0] ++ List.replicate 16 0)
  ++ ([0, 0, 0, 0] ++ [3, 0, 0, 0] ++ [0, 0, 0, 0] ++ [0, 0, 0, 0]
      ++ [0x84, 0, 0, 0] ++ [9, 0, 0, 0] ++ List.replicate 16 0)
  ++ [0x2e, 0x74, 0x6f, 0x68, 0x6f, 0x73, 0x74, 0x00, 0]

/-- The emulator state `setup_program` produces from `dTest`. -/
def eTest : Emulator :=
  { cpu := { xlen := Xlen.Bit32, pc := 0x80000000
             mmu := { memCapacity := TEST_MEMORY_CAPACITY
                      stores := [(0x80001000, 0x2e), (0x80001001, 0x74),
                        (0x80001002, 0x6f), (0x80001003, 0x68),
                        (0x80001004, 0x6f), (0x80001005, 0x73),
                        (0x80001006, 0x74), (0x80001007, 0x00)] } }
    is_test := true
    tohost_addr := 0x80001000 }

/-- A 32-bit image with one program-data section whose file range
(`sh_offset = 4`, `sh_size = 4`) covers the endianness byte at index 5, so
that byte is copied into physical memory. -/
def dEnd : List Nat :=
  [0x7f, 0x45, 0x4c, 0x46, 1, 0, 0, 0, 0, 0, 0, 0, 0, 0, 0, 0]
  ++ [0, 0, 0, 0, 0, 0, 0, 0]
  ++ [0, 0, 0, 0]
  ++ [0, 0, 0, 0]
  ++ [0x34, 0, 0, 0]
  ++ [0, 0, 0, 0]
  ++ [0, 0, 0, 0, 0, 0, 0, 0]
  ++ [1, 0]
  ++ [0, 0]
  ++ ([0, 0, 0, 0] ++ [1, 0, 0, 0] ++ [0, 0, 0, 0] ++ [0, 0, 0, 0x80]
      ++ [4, 0, 0, 0] ++ [4, 0, 0, 0] ++ List.replicate 16 0)

/-- A well-formed header whose section-header offset `e_shoff = 200` lies
beyond the 52-byte input, with `e_shnum = 1`. -/
def dShoffOOB : List Nat :=
  [0x7f, 0x45, 0x4c, 0x46, 1, 0, 0, 0, 0, 0, 0, 0, 0, 0, 0, 0]
  ++ [0, 0, 0, 0, 0, 0, 0, 0]
  ++ [0, 0, 0, 0]
  ++ [0, 0, 0, 0]
  ++ [200, 0, 0, 0]
  ++ [0, 0, 0, 0]
  ++ [0, 0, 0, 0, 0, 0, 0, 0]
  ++ [1, 0]
  ++ [0, 0]

/-- Like `dTest` but the string table claims `sh_offset = 200`,
`sh_size = 300`: the name position 200 is inside the claimed extent
`[200, 500)` yet beyond the 132-byte input, so the scan indexes out of
bounds. -/
def dScanOOB : List Nat :=
  [0x7f, 0x45, 0x4c, 0x46, 1, 0, 0, 0, 0, 0, 0, 0, 0, 0, 0, 0]
  ++ [0, 0, 0, 0, 0, 0, 0, 0]
  ++ [0, 0, 0, 0]
  ++ [0, 0, 0, 0]
  ++ [0x34, 0, 0, 0]
  ++ [0, 0, 0, 0]
  ++ [0, 0, 0, 0, 0, 0, 0, 0]
  ++ [2, 0]
  ++ [0, 0]
  ++ ([0, 0, 0, 0] ++ [1, 0, 0, 0] ++ [0, 0, 0, 0] ++ [0, 0x10, 0, 0x80]
      ++ [0x84, 0, 0, 0] ++ [8, 0, 0, 0] ++ List.replicate 16 0)
  ++ ([0, 0, 0, 0] ++ [3, 0, 0, 0] ++ [0, 0, 0, 0] ++ [0, 0, 0, 0]
      ++ [200, 0, 0, 0] ++ [44, 1, 0, 0] ++ List.replicate 16 0)

/-- A CPU step that writes the byte 1 to physical address 100 on the first
tick (a guest storing the pass code to the termination address). -/
def tickC1 : Cpu → Cpu :=
  fun c => { c with mmu := c.mmu.store_raw 100 1 }

/-- A test-mode emulator whose termination address is 100. -/
def eRun : Emulator :=
  { cpu := { xlen := Xlen.Bit64, pc := 0
             mmu := { memCapacity := TEST_MEMORY_CAPACITY, stores := [] } }
    is_test := true
    tohost_addr := 100 }

/-- State `eRun` after one `tickC1` step. -/
def eRunAfter : Emulator :=
  { cpu := { xlen := Xlen.Bit64, pc := 0
             mmu := { memCapacity := TEST_MEMORY_CAPACITY, stores := [(100, 1)] } }
    is_test := true
    tohost_addr := 100 }

/-- A CPU step that writes the pass code 1 to physical address 50 on the
first tick. -/
def tickC2 : Cpu → Cpu :=
  fun c => { c with mmu := c.mmu.store_raw 50 1 }

/-- A test-mode emulator whose termination address is 50. -/
def eRun2 : Emulator :=
  { cpu := { xlen := Xlen.Bit32, pc := 0
             mmu := { memCapacity := TEST_MEMORY_CAPACITY, stores := [] } }
    is_test := true
    tohost_addr := 50 }

/-- State `eRun2` after one `tickC2` step. -/
def eRun2After : Emulator :=
  { cpu := { xlen := Xlen.Bit32, pc := 0
             mmu := { memCapacity := TEST_MEMORY_CAPACITY, stores := [(50, 1)] } }
    is_test := true
    tohost_addr := 50 }

/-- A magic-correct header whose class byte is 3 (neither ELFCLASS32 nor
ELFCLASS64). -/
def dBadClass : List Nat := [0x7f, 0x45, 0x4c, 0x46, 3]

/-- Claim-side little-endian value of `n` bytes starting at file offset
`off` (missing bytes read as 0; a successful parse never reads out of
bounds, see `readLE_ok_leSpec`). -/
def leSpec (data : List Nat) : Nat → Nat → Nat
  | _, 0 => 0
  | off, n + 1 => data.getD off 0 + 256 * leSpec data (off + 1) n

/-- Claim-side statement that a string-table section `st` holds the name
`".tohost\0"` for name offset `nameOff`: all eight bytes sit below the
table's extent `sh_offset + sh_size` and the file bytes there spell the
expected string. -/
def NameAt (data : List Nat) (nameOff : Nat) (st : SectionHeader) : Prop :=
  ∀ k, k < 8 →
    st.sh_offset + nameOff + k < st.sh_offset + st.sh_size ∧
    data.get? (st.sh_offset + nameOff + k) = some (tohostBytes.getD k 0)

/-- Claim-side test-image criterion (C4): some program-data section header
(`sh_type = 1`) with non-zero `sh_addr` has its name bytes, in some
string-table section (`sh_type = 3`), equal to `".tohost\0"`. -/
def IsTestImage (data : List Nat) (l : List SectionHeader) : Prop :=
  ∃ p, p ∈ l ∧ p.sh_type = 1 ∧ p.sh_addr ≠ 0 ∧
    ∃ st, st ∈ l ∧ st.sh_type = 3 ∧ NameAt data p.sh_name st

/-- Claim-side description of the loader's raw stores (C9): for each
section with `sh_type = 1`, `sh_addr ≥ 0x80000000`, `sh_offset > 0` and
`sh_size > 0`, in table order, byte `j` of the section is taken from file
offset `sh_offset + j` and stored at physical address `sh_addr + j`. -/
def claimStores (data : List Nat) (l : List SectionHeader) : List (Nat × Nat) :=
  (l.filter (fun s => s.sh_type == 1 && decide (0x80000000 ≤ s.sh_addr) &&
      decide (0 < s.sh_offset) && decide (0 < s.sh_size))).flatMap
    (fun s => (List.range s.sh_size).map
      (fun j => (s.sh_addr + j, data.getD (s.sh_offset + j) 0)))

/-! ## Generic inversion helpers -/

theorem bind_ok_elim {α β : Type} (x : Except SetupError α)
    (f : α → Except SetupError β) (b : β) (h : (x >>= f) = Except.ok b) :
    ∃ a, x = Except.ok a ∧ f a = Except.ok b := by
  cases x with
  | error e => exact absurd h (by simp [Bind.bind, Except.bind])
  | ok a => exact ⟨a, rfl, h⟩

theorem readByte_ok_inv (data : List Nat) (i b : Nat)
    (h : readByte data i = Except.ok b) : data.get? i = some b := by
  unfold readByte at h
  cases hg : data.get? i with
  | none => rw [hg] at h; exact Except.noConfusion h
  | some x => rw [hg] at h; exact congrArg some (Except.ok.inj h)

/-! ## Characterization of the `run_test` loop -/

/-- Full characterization of a terminating `run_test` run: it executes at
least one and at most `fuel` ticks, the final state is the initial state
ticked exactly `n` times, the raw word at the termination address is
non-zero there and zero after every earlier tick, and the report is pass
exactly for end code 1. -/
theorem runTest_spec (f : Cpu → Cpu) :
    ∀ (fuel n : Nat) (e ef : Emulator) (r : TestResult),
      runTest f fuel e = some (n, ef, r) →
      1 ≤ n ∧ n ≤ fuel ∧ ef = (Emulator.tickWith f)^[n] e ∧
      ef.cpu.mmu.load_word_raw ef.tohost_addr ≠ 0 ∧
      (∀ k, 1 ≤ k → k < n →
        ((Emulator.tickWith f)^[k] e).cpu.mmu.load_word_raw
          (((Emulator.tickWith f)^[k] e).tohost_addr) = 0) ∧
      r = (if ef.cpu.mmu.load_word_raw ef.tohost_addr = 1
        then TestResult.passed (ef.cpu.mmu.load_word_raw ef.tohost_addr)
        else TestResult.failed (ef.cpu.mmu.load_word_raw ef.tohost_addr)) := by
  intro fuel
  induction fuel with
  | zero => intro n e ef r h; simp [runTest] at h
  | succ fuel ih =>
    intro n e ef r h
    rw [runTest] at h
    by_cases hz : (Emulator.tickWith f e).cpu.mmu.load_word_raw
        (Emulator.tickWith f e).tohost_addr ≠ 0
    · rw [if_pos hz] at h
      simp only [Option.some.injEq, Prod.mk.injEq] at h
      obtain ⟨hn, he, hr⟩ := h
      subst hn; subst he; subst hr
      refine ⟨le_refl 1, Nat.le_add_left 1 fuel, ?_, hz, ?_, rfl⟩
      · rw [Function.iterate_one]
      · intro k h1 h2; omega
    · rw [if_neg hz] at h
      push_neg at hz
      cases hm : runTest f fuel (Emulator.tickWith f e) with
      | none => rw [hm] at h; exact absurd h (by simp)
      | some p =>
        obtain ⟨m, ef2, r2⟩ := p
        rw [hm] at h
        simp only [Option.some.injEq, Prod.mk.injEq] at h
        obtain ⟨hn, he, hr⟩ := h
        subst hn; subst he; subst hr
        obtain ⟨ih1, ih2, ih3, ih4, ih5, ih6⟩ := ih m (Emulator.tickWith f e) ef2 r2 hm
        refine ⟨Nat.le_add_left 1 m, by omega, ?_, ih4, ?_, ih6⟩
        · rw [Function.iterate_succ_apply, ih3]
        · intro k h1 h2
          rcases Nat.lt_or_ge k 2 with hk | hk
          · have : k = 1 := by omega
            subst this
            rw [Function.iterate_one]
            exact hz
          · have hk1 : k = (k - 1) + 1 := by omega
            rw [hk1, Function.iterate_succ_apply]
            exact ih5 (k - 1) (by omega) (by omega)

/-- C1: In test mode, after every call to `tick()` inside `run_test`, the
word at `tohost_addr` is read via the raw load path, and once a non-zero
value is observed there the run ends: the loop executed exactly `n` ticks,
the value after the `n`-th tick is non-zero, and after every earlier tick
the polled value was zero — so `run_test`'s loop terminates before any
further `tick()` is executed. -/
theorem run_test_polls_and_stops (f : Cpu → Cpu) (fuel n : Nat)
    (e ef : Emulator) (r : TestResult)
    (h : runTest f fuel e = some (n, ef, r)) :
    1 ≤ n ∧ ef = (Emulator.tickWith f)^[n] e ∧
    ef.cpu.mmu.load_word_raw ef.tohost_addr ≠ 0 ∧
    ∀ k, 1 ≤ k → k < n →
      ((Emulator.tickWith f)^[k] e).cpu.mmu.load_word_raw
        (((Emulator.tickWith f)^[k] e).tohost_addr) = 0 := by
  obtain ⟨h1, _, h3, h4, h5, _⟩ := runTest_spec f fuel n e ef r h
  exact ⟨h1, h3, h4, h5⟩

/-- Witness for C1 at a concrete CPU step that stores the byte 1 at the
termination address 100 on the first tick. -/
theorem run_test_polls_and_stops_witness :
    1 ≤ 1 ∧ eRunAfter = (Emulator.tickWith tickC1)^[1] eRun ∧
    eRunAfter.cpu.mmu.load_word_raw eRunAfter.tohost_addr ≠ 0 ∧
    ∀ k, 1 ≤ k → k < 1 →
      ((Emulator.tickWith tickC1)^[k] eRun).cpu.mmu.load_word_raw
        (((Emulator.tickWith tickC1)^[k] eRun).tohost_addr) = 0 :=
  run_test_polls_and_stops tickC1 3 1 eRun eRunAfter (TestResult.passed 1)
    (by decide)

/-- C2: when the guest writes the (non-zero) pass code 1 to the designated
termination address, `run_test` stops and reports the test as passed with
that value, after exactly the `n` ticks it took for the code to appear —
no further cycles are executed. -/
theorem run_test_reports_pass (f : Cpu → Cpu) (fuel n : Nat)
    (e ef : Emulator) (r : TestResult)
    (h : runTest f fuel e = some (n, ef, r))
    (hp : ef.cpu.mmu.load_word_raw ef.tohost_addr = 1) :
    r = TestResult.passed 1 ∧ ef = (Emulator.tickWith f)^[n] e ∧
    ∀ k, 1 ≤ k → k < n →
      ((Emulator.tickWith f)^[k] e).cpu.mmu.load_word_raw
        (((Emulator.tickWith f)^[k] e).tohost_addr) = 0 := by
  obtain ⟨_, _, h3, _, h5, h6⟩ := runTest_spec f fuel n e ef r h
  refine ⟨?_, h3, h5⟩
  rw [h6, hp]
  simp

/-- Witness for C2 at a concrete CPU step that stores the pass code 1 at
the termination address 50 on the first tick. -/
theorem run_test_reports_pass_witness :
    TestResult.passed 1 = TestResult.passed 1 ∧
    eRun2After = (Emulator.tickWith tickC2)^[1] eRun2 ∧
    ∀ k, 1 ≤ k → k < 1 →
      ((Emulator.tickWith tickC2)^[k] eRun2).cpu.mmu.load_word_raw
        (((Emulator.tickWith tickC2)^[k] eRun2).tohost_addr) = 0 :=
  run_test_reports_pass tickC2 4 1 eRun2 eRun2After (TestResult.passed 1)
    (by decide) (by decide)

/-! ## Inversion of the ELF header parse -/

/-- Everything a successful `parseElf` run guarantees: the magic bytes, the
class byte and the width derived from it, the bounds witness for the
endianness byte, and the header fields `setup_program` goes on to use. -/
theorem parseElf_ok_inv (data : List Nat) (i : ElfInfo)
    (h : parseElf data = Except.ok i) :
    data.get? 0 = some 0x7f ∧ data.get? 1 = some 0x45 ∧
    data.get? 2 = some 0x4c ∧ data.get? 3 = some 0x46 ∧
    ((data.get? 4 = some 1 ∧ i.width8 = 4) ∨
      (data.get? 4 = some 2 ∧ i.width8 = 8)) ∧
    5 < data.length ∧
    readLE data 0x18 i.width8 = Except.ok i.e_entry ∧
    readLE data (0x18 + 2 * i.width8) i.width8 = Except.ok i.e_shoff ∧
    readLE data (0x24 + 3 * i.width8) 2 = Except.ok i.e_shnum ∧
    parseSectionHeaders data i.width8 i.e_shoff i.e_shnum =
      Except.ok i.sections := by
  unfold parseElf at h
  obtain ⟨b0, hb0, h⟩ := bind_ok_elim _ _ _ h
  have e0 : b0 = 0x7f := by
    by_contra e0
    rw [if_pos e0] at h
    exact Except.noConfusion h
  rw [if_neg (not_not_intro e0)] at h
  subst e0
  obtain ⟨b1, hb1, h⟩ := bind_ok_elim _ _ _ h
  have e1 : b1 = 0x45 := by
    by_contra e1
    rw [if_pos e1] at h
    exact Except.noConfusion h
  rw [if_neg (not_not_intro e1)] at h
  subst e1
  obtain ⟨b2, hb2, h⟩ := bind_ok_elim _ _ _ h
  have e2 : b2 = 0x4c := by
    by_contra e2
    rw [if_pos e2] at h
    exact Except.noConfusion h
  rw [if_neg (not_not_intro e2)] at h
  subst e2
  obtain ⟨b3, hb3, h⟩ := bind_ok_elim _ _ _ h
  have e3 : b3 = 0x46 := by
    by_contra e3
    rw [if_pos e3] at h
    exact Except.noConfusion h
  rw [if_neg (not_not_intro e3)] at h
  subst e3
  obtain ⟨eClass, hc, h⟩ := bind_ok_elim _ _ _ h
  obtain ⟨w8, hw8, h⟩ := bind_ok_elim _ _ _ h
  have hcw : (eClass = 1 ∧ w8 = 4) ∨ (eClass = 2 ∧ w8 = 8) := by
    match eClass, hw8 with
    | 1, hw8 =>
      exact Or.inl ⟨rfl,
        (Except.ok.inj (show Except.ok 4 = Except.ok w8 from hw8)).symm⟩
    | 2, hw8 =>
      exact Or.inr ⟨rfl,
        (Except.ok.inj (show Except.ok 8 = Except.ok w8 from hw8)).symm⟩
    | 0, hw8 =>
      exact Except.noConfusion
        (show Except.error SetupError.unknownClass = Except.ok w8 from hw8)
    | (n + 3), hw8 =>
      exact Except.noConfusion
        (show Except.error SetupError.unknownClass = Except.ok w8 from hw8)
  obtain ⟨b5, hb5, h⟩ := bind_ok_elim _ _ _ h
  obtain ⟨b6, hb6, h⟩ := bind_ok_elim _ _ _ h
  obtain ⟨b7, hb7, h⟩ := bind_ok_elim _ _ _ h
  obtain ⟨b8, hb8, h⟩ := bind_ok_elim _ _ _ h
  obtain ⟨t1, ht1, h⟩ := bind_ok_elim _ _ _ h
  obtain ⟨t2, ht2, h⟩ := bind_ok_elim _ _ _ h
  obtain ⟨t3, ht3, h⟩ := bind_ok_elim _ _ _ h
  obtain ⟨eEntry, hEntry, h⟩ := bind_ok_elim _ _ _ h
  obtain ⟨t4, ht4, h⟩ := bind_ok_elim _ _ _ h
  obtain ⟨eShoff, hShoff, h⟩ := bind_ok_elim _ _ _ h
  obtain ⟨t5, ht5, h⟩ := bind_ok_elim _ _ _ h
  obtain ⟨t6, ht6, h⟩ := bind_ok_elim _ _ _ h
  obtain ⟨t7, ht7, h⟩ := bind_ok_elim _ _ _ h
  obtain ⟨t8, ht8, h⟩ := bind_ok_elim _ _ _ h
  obtain ⟨t9, ht9, h⟩ := bind_ok_elim _ _ _ h
  obtain ⟨eShnum, hShnum, h⟩ := bind_ok_elim _ _ _ h
  obtain ⟨t10, ht10, h⟩ := bind_ok_elim _ _ _ h
  obtain ⟨shs, hShs, h⟩ := bind_ok_elim _ _ _ h
  have hi : i = ⟨w8, eEntry, eShoff, eShnum, shs⟩ := (Except.ok.inj h).symm
  subst hi
  have h5len : 5 < data.length := by
    have := readByte_ok_inv data 5 b5 hb5
    have := List.get?_eq_some.mp this
    exact this.1
  refine ⟨readByte_ok_inv _ _ _ hb0, readByte_ok_inv _ _ _ hb1,
    readByte_ok_inv _ _ _ hb2, readByte_ok_inv _ _ _ hb3, ?_, h5len,
    hEntry, hShoff, hShnum, hShs⟩
  rcases hcw with ⟨hc1, hw4⟩ | ⟨hc2, hw8'⟩
  · subst hc1; subst hw4
    exact Or.inl ⟨readByte_ok_inv _ _ _ hc, rfl⟩
  · subst hc2; subst hw8'
    exact Or.inr ⟨readByte_ok_inv _ _ _ hc, rfl⟩

/-! ## Inversion of `setup_program` -/

/-- A successful `setup_program` run decomposes into a successful parse, a
successful `.tohost` scan and a successful section copy, and the resulting
emulator state is determined by their results. -/
theorem setup_ok_inv (emu : Emulator) (data : List Nat) (e : Emulator)
    (h : emu.setup_program data = Except.ok e) :
    ∃ i t mmu, parseElf data = Except.ok i ∧
      scanProgs data (strSections i.sections) 0 (progSections i.sections) =
        Except.ok t ∧
      copySections data
        (emu.cpu.mmu.init_memory
          (if t ≠ 0 then TEST_MEMORY_CAPACITY else PROGRAM_MEMORY_CAPACITY))
        (progSections i.sections) = Except.ok mmu ∧
      e = { cpu := { xlen := if i.width8 == 4 then Xlen.Bit32 else Xlen.Bit64
                     pc := i.e_entry
                     mmu := mmu }
            is_test := t != 0
            tohost_addr := t } := by
  unfold Emulator.setup_program at h
  obtain ⟨i, hi, h⟩ := bind_ok_elim _ _ _ h
  obtain ⟨t, ht, h⟩ := bind_ok_elim _ _ _ h
  obtain ⟨mmu, hm, h⟩ := bind_ok_elim _ _ _ h
  exact ⟨i, t, mmu, hi, ht, hm, (Except.ok.inj h).symm⟩

/-- C3: `setup_program` is fatal at load time for every input whose first
four bytes are not the ELF magic `0x7f 0x45 0x4c 0x46`, and for every
input whose class byte `data[4]` is neither 1 nor 2: no configured
emulator is produced, the computation aborts (a panic in the source)
before any cycle executes. -/
theorem setup_rejects_bad_magic_or_class (emu : Emulator) (data : List Nat)
    (h : data.get? 0 ≠ some 0x7f ∨ data.get? 1 ≠ some 0x45 ∨
      data.get? 2 ≠ some 0x4c ∨ data.get? 3 ≠ some 0x46 ∨
      (∀ b, data.get? 4 = some b → b ≠ 1 ∧ b ≠ 2)) :
    isErr (emu.setup_program data) = true := by
  cases hs : emu.setup_program data with
  | error er => rfl
  | ok e =>
    obtain ⟨i, t, mmu, hi, _, _, _⟩ := setup_ok_inv emu data e hs
    obtain ⟨m0, m1, m2, m3, hcls, _, _, _, _, _⟩ := parseElf_ok_inv data i hi
    rcases h with h | h | h | h | h
    · exact absurd m0 h
    · exact absurd m1 h
    · exact absurd m2 h
    · exact absurd m3 h
    · rcases hcls with ⟨hc, _⟩ | ⟨hc, _⟩
      · exact absurd rfl (h 1 hc).1
      · exact absurd rfl (h 2 hc).2

/-- Witness for C3: an input whose first byte is not `0x7f`. -/
theorem setup_rejects_bad_magic_or_class_witness :
    isErr (emu0.setup_program [0, 0, 0, 0]) = true :=
  setup_rejects_bad_magic_or_class emu0 [0, 0, 0, 0] (Or.inl (by decide))

/-! ## Memory-capacity preservation through the copy loop -/

theorem store_raw_capacity (m : Mmu) (a v : Nat) :
    (m.store_raw a v).memCapacity = m.memCapacity := rfl

theorem copyRange_capacity (data : List Nat) (a o : Nat) :
    ∀ (c j : Nat) (m m2 : Mmu), copyRange data a o m j c = Except.ok m2 →
      m2.memCapacity = m.memCapacity := by
  intro c
  induction c with
  | zero => intro j m m2 h; rw [(Except.ok.inj h).symm]
  | succ c ih =>
    intro j m m2 h
    rw [copyRange] at h
    obtain ⟨b, _, h⟩ := bind_ok_elim _ _ _ h
    exact ih (j + 1) (m.store_raw (a + j) b) m2 h

theorem copySections_capacity (data : List Nat) :
    ∀ (l : List SectionHeader) (m m2 : Mmu),
      copySections data m l = Except.ok m2 →
      m2.memCapacity = m.memCapacity := by
  intro l
  induction l with
  | nil => intro m m2 h; rw [(Except.ok.inj h).symm]
  | cons p rest ih =>
    intro m m2 h
    rw [copySections] at h
    by_cases hc : p.sh_addr ≥ 0x80000000 ∧ 0 < p.sh_offset ∧ 0 < p.sh_size
    · rw [if_pos hc] at h
      obtain ⟨m1, hm1, h⟩ := bind_ok_elim _ _ _ h
      rw [ih m1 m2 h,
        copyRange_capacity data p.sh_addr p.sh_offset p.sh_size 0 m m1 hm1]
    · rw [if_neg hc] at h
      obtain ⟨m1, hm1, h⟩ := bind_ok_elim _ _ _ h
      rw [ih m1 m2 h, ← (Except.ok.inj hm1)]

/-- C5: `setup_program` sizes physical memory with exactly one of two
presets: `TEST_MEMORY_CAPACITY` (512 KiB) exactly when the image is
detected as a conformance-test image, and `PROGRAM_MEMORY_CAPACITY`
(128 MiB) in every other case. -/
theorem setup_memory_capacity (emu : Emulator) (data : List Nat)
    (e : Emulator) (h : emu.setup_program data = Except.ok e) :
    TEST_MEMORY_CAPACITY = 512 * 1024 ∧
    PROGRAM_MEMORY_CAPACITY = 128 * 1024 * 1024 ∧
    e.cpu.mmu.memCapacity =
      if e.is_test then TEST_MEMORY_CAPACITY else PROGRAM_MEMORY_CAPACITY := by
  obtain ⟨i, t, mmu, _, _, hm, he⟩ := setup_ok_inv emu data e h
  refine ⟨by decide, by decide, ?_⟩
  have hcap := copySections_capacity data (progSections i.sections) _ mmu hm
  subst he
  rcases eq_or_ne t 0 with h0 | h0
  · subst h0
    simpa using hcap
  · simp only [bne_iff_ne, ne_eq]
    rw [if_pos h0] at hcap
    simpa [h0] using hcap

/-- Witness for C5 at the minimal non-test image `dGood`. -/
theorem setup_memory_capacity_witness :
    TEST_MEMORY_CAPACITY = 512 * 1024 ∧
    PROGRAM_MEMORY_CAPACITY = 128 * 1024 * 1024 ∧
    eGood.cpu.mmu.memCapacity =
      if eGood.is_test then TEST_MEMORY_CAPACITY else PROGRAM_MEMORY_CAPACITY :=
  setup_memory_capacity emu0 dGood eGood (by decide)

/-- C6: the CPU's XLEN is selected from the image's declared ELF class
byte: 32-bit exactly when `data[4] = 1`, 64-bit exactly when
`data[4] = 2`, and every other class value is rejected fatally at load
time. -/
theorem setup_xlen_from_class (emu : Emulator) (data : List Nat) :
    (∀ e, emu.setup_program data = Except.ok e →
      ((e.cpu.xlen = Xlen.Bit32 ↔ data.get? 4 = some 1) ∧
       (e.cpu.xlen = Xlen.Bit64 ↔ data.get? 4 = some 2))) ∧
    (∀ b, data.get? 4 = some b → b ≠ 1 → b ≠ 2 →
      isErr (emu.setup_program data) = true) := by
  constructor
  · intro e h
    obtain ⟨i, t, mmu, hi, _, _, he⟩ := setup_ok_inv emu data e h
    obtain ⟨_, _, _, _, hcls, _, _, _, _, _⟩ := parseElf_ok_inv data i hi
    subst he
    rcases hcls with ⟨hc, hw⟩ | ⟨hc, hw⟩
    · rw [hc, hw]
      constructor
      · simp
      · constructor
        · intro hx; exact absurd hx (by simp)
        · intro hx
          exact absurd (Option.some.inj hx) (by decide)
    · rw [hc, hw]
      constructor
      · constructor
        · intro hx; exact absurd hx (by simp)
        · intro hx
          exact absurd (Option.some.inj hx) (by decide)
      · simp
  · intro b hb h1 h2
    cases hs : emu.setup_program data with
    | error er => rfl
    | ok e =>
      obtain ⟨i, t, mmu, hi, _, _, _⟩ := setup_ok_inv emu data e hs
      obtain ⟨_, _, _, _, hcls, _, _, _, _, _⟩ := parseElf_ok_inv data i hi
      rcases hcls with ⟨hc, _⟩ | ⟨hc, _⟩
      · rw [hb] at hc
        exact absurd (Option.some.inj hc) h1
      · rw [hb] at hc
        exact absurd (Option.some.inj hc) h2

/-- Witness for C6: the 32-bit image `dGood` yields a 32-bit CPU, and a
class byte of 3 is rejected. -/
theorem setup_xlen_from_class_witness :
    ((eGood.cpu.xlen = Xlen.Bit32 ↔ dGood.get? 4 = some 1) ∧
     (eGood.cpu.xlen = Xlen.Bit64 ↔ dGood.get? 4 = some 2)) ∧
    isErr (emu0.setup_program dBadClass) = true :=
  ⟨(setup_xlen_from_class emu0 dGood).1 eGood (by decide),
   (setup_xlen_from_class emu0 dBadClass).2 3 (by decide)
     (by decide) (by decide)⟩

/-! ## The little-endian reads, related to their claim-side value -/

theorem readLE_ok_leSpec (data : List Nat) :
    ∀ (n off v : Nat), readLE data off n = Except.ok v →
      v = leSpec data off n := by
  intro n
  induction n with
  | zero => intro off v h; rw [(Except.ok.inj h).symm]; rfl
  | succ n ih =>
    intro off v h
    rw [readLE] at h
    obtain ⟨b, hb, h⟩ := bind_ok_elim _ _ _ h
    obtain ⟨rest, hrest, h⟩ := bind_ok_elim _ _ _ h
    rw [(Except.ok.inj h).symm, leSpec]
    have hgd : data.getD off 0 = b := by
      have h2 := readByte_ok_inv data off b hb
      rw [List.get?_eq_getElem?] at h2
      simp [List.getD, h2]
    rw [hgd, ih (off + 1) rest hrest]

/-- C7: after `setup_program` returns on a well-formed image, the program
counter equals the ELF header's entry-point field, parsed little-endian
from file offset 0x18 — 4 bytes for a 32-bit-class image, 8 bytes for a
64-bit-class image. -/
theorem setup_pc_is_entry (emu : Emulator) (data : List Nat) (e : Emulator)
    (h : emu.setup_program data = Except.ok e) :
    ∃ c, data.get? 4 = some c ∧
      ((c = 1 ∧ e.cpu.pc = leSpec data 0x18 4) ∨
       (c = 2 ∧ e.cpu.pc = leSpec data 0x18 8)) := by
  obtain ⟨i, t, mmu, hi, _, _, he⟩ := setup_ok_inv emu data e h
  obtain ⟨_, _, _, _, hcls, _, hent, _, _, _⟩ := parseElf_ok_inv data i hi
  subst he
  rcases hcls with ⟨hc, hw⟩ | ⟨hc, hw⟩
  · rw [hw] at hent
    exact ⟨1, hc, Or.inl ⟨rfl, readLE_ok_leSpec data 4 0x18 i.e_entry hent⟩⟩
  · rw [hw] at hent
    exact ⟨2, hc, Or.inr ⟨rfl, readLE_ok_leSpec data 8 0x18 i.e_entry hent⟩⟩

/-- Witness for C7 at the riscv-tests-style image `dTest`, whose entry
point is 0x80000000. -/
theorem setup_pc_is_entry_witness :
    ∃ c, dTest.get? 4 = some c ∧
      ((c = 1 ∧ eTest.cpu.pc = leSpec dTest 0x18 4) ∨
       (c = 2 ∧ eTest.cpu.pc = leSpec dTest 0x18 8)) :=
  setup_pc_is_entry emu0 dTest eTest (by decide)

/-! ## The `.tohost` scan, related to the claim-side predicate -/

theorem ok_bind {α β : Type} (a : α) (f : α → Except SetupError β) :
    (Except.ok a >>= f) = f a := rfl

theorem matchBytes_true_inv (data : List Nat) (base limit : Nat) :
    ∀ (ts : List Nat) (k : Nat),
      matchBytes data base limit k ts = Except.ok true →
      ∀ j, j < ts.length →
        base + (k + j) < limit ∧
        data.get? (base + (k + j)) = some (ts.getD j 0) := by
  intro ts
  induction ts with
  | nil => intro k h j hj; exact absurd hj (by simp)
  | cons t ts ih =>
    intro k h j hj
    rw [matchBytes] at h
    by_cases hge : base + k ≥ limit
    · rw [if_pos hge] at h
      exact absurd (Except.ok.inj h) (by decide)
    · rw [if_neg hge] at h
      obtain ⟨b, hb, h⟩ := bind_ok_elim _ _ _ h
      by_cases hbt : b = t
      · rw [if_neg (not_not_intro hbt)] at h
        cases j with
        | zero =>
          refine ⟨by omega, ?_⟩
          have := readByte_ok_inv data (base + k) b hb
          rw [hbt] at this
          simpa using this
        | succ j =>
          have hres := ih (k + 1) h j (by simpa using hj)
          have harith : base + (k + 1 + j) = base + (k + (j + 1)) := by omega
          rw [harith] at hres
          simpa using hres
      · rw [if_pos hbt] at h
        exact absurd (Except.ok.inj h) (by decide)

theorem matchBytes_true_of (data : List Nat) (base limit : Nat) :
    ∀ (ts : List Nat) (k : Nat),
      (∀ j, j < ts.length → base + (k + j) < limit ∧
        data.get? (base + (k + j)) = some (ts.getD j 0)) →
      matchBytes data base limit k ts = Except.ok true := by
  intro ts
  induction ts with
  | nil => intro k _; rfl
  | cons t ts ih =>
    intro k h
    obtain ⟨h0lt, h0get⟩ := h 0 (by simp)
    rw [matchBytes, if_neg (by omega)]
    have hrb : readByte data (base + k) = Except.ok t := by
      unfold readByte
      have hg : data.get? (base + k) = some t := by simpa using h0get
      rw [hg]
    rw [hrb, ok_bind, if_neg (not_not_intro rfl)]
    apply ih (k + 1)
    intro j hj
    have hres := h (j + 1) (by simpa using hj)
    have harith : base + (k + (j + 1)) = base + (k + 1 + j) := by omega
    rw [harith] at hres
    simpa using hres

/-- Predicate `NameAt` is exactly what a successful `.tohost` byte comparison
establishes. -/
theorem nameAt_iff (data : List Nat) (nameOff : Nat) (st : SectionHeader) :
    NameAt data nameOff st ↔
    matchBytes data (st.sh_offset + nameOff) (st.sh_offset + st.sh_size) 0
      tohostBytes = Except.ok true := by
  constructor
  · intro h
    apply matchBytes_true_of
    intro j hj
    have hj8 : j < 8 := by simpa [tohostBytes] using hj
    obtain ⟨h1, h2⟩ := h j hj8
    have harith : st.sh_offset + nameOff + (0 + j) =
        st.sh_offset + nameOff + j := by omega
    rw [harith]
    exact ⟨h1, h2⟩
  · intro h k hk
    have hres := matchBytes_true_inv data (st.sh_offset + nameOff)
      (st.sh_offset + st.sh_size) tohostBytes 0 h k
      (by simpa [tohostBytes] using hk)
    have harith : st.sh_offset + nameOff + (0 + k) =
        st.sh_offset + nameOff + k := by omega
    rw [harith] at hres
    exact hres

theorem scanStrs_inv (data : List Nat) (shAddr nameOff : Nat) :
    ∀ (strs : List SectionHeader) (acc a : Nat),
      scanStrs data shAddr nameOff acc strs = Except.ok a →
      (a = shAddr ∧ ∃ st, st ∈ strs ∧
        matchBytes data (st.sh_offset + nameOff) (st.sh_offset + st.sh_size)
          0 tohostBytes = Except.ok true) ∨
      (a = acc ∧ ∀ st, st ∈ strs →
        matchBytes data (st.sh_offset + nameOff) (st.sh_offset + st.sh_size)
          0 tohostBytes ≠ Except.ok true) := by
  intro strs
  induction strs with
  | nil =>
    intro acc a h
    right
    exact ⟨(Except.ok.inj h).symm, by simp⟩
  | cons st rest ih =>
    intro acc a h
    rw [scanStrs] at h
    obtain ⟨f, hf, h⟩ := bind_ok_elim _ _ _ h
    cases f with
    | true =>
      rw [if_pos rfl] at h
      rcases ih shAddr a h with ⟨ha, st2, hst2, hm⟩ | ⟨ha, _⟩
      · exact Or.inl ⟨ha, st2, List.mem_cons_of_mem st hst2, hm⟩
      · exact Or.inl ⟨ha, st, List.mem_cons_self st rest, hf⟩
    | false =>
      rw [if_neg (by simp)] at h
      rcases ih acc a h with ⟨ha, st2, hst2, hm⟩ | ⟨ha, hall⟩
      · exact Or.inl ⟨ha, st2, List.mem_cons_of_mem st hst2, hm⟩
      · refine Or.inr ⟨ha, ?_⟩
        intro st2 hst2
        rcases List.mem_cons.mp hst2 with rfl | hmem
        · rw [hf]; exact fun hc => absurd (Except.ok.inj hc) (by decide)
        · exact hall st2 hmem

theorem scanProgs_inv (data : List Nat) (strs : List SectionHeader) :
    ∀ (progs : List SectionHeader) (t : Nat),
      scanProgs data strs 0 progs = Except.ok t →
      (t ≠ 0 → ∃ p, p ∈ progs ∧ p.sh_addr = t ∧
        ∃ st, st ∈ strs ∧
          matchBytes data (st.sh_offset + p.sh_name)
            (st.sh_offset + st.sh_size) 0 tohostBytes = Except.ok true) ∧
      (t = 0 → ∀ p, p ∈ progs → p.sh_addr ≠ 0 →
        ∀ st, st ∈ strs →
          matchBytes data (st.sh_offset + p.sh_name)
            (st.sh_offset + st.sh_size) 0 tohostBytes ≠ Except.ok true) := by
  intro progs
  induction progs with
  | nil =>
    intro t h
    constructor
    · intro ht; exact absurd (Except.ok.inj h).symm ht
    · intro _ p hp; exact absurd hp (by simp)
  | cons p rest ih =>
    intro t h
    rw [scanProgs] at h
    obtain ⟨a, ha, h⟩ := bind_ok_elim _ _ _ h
    by_cases haz : a ≠ 0
    · rw [if_pos haz] at h
      have ht : t = a := (Except.ok.inj h).symm
      subst ht
      constructor
      · intro _
        rcases scanStrs_inv data p.sh_addr p.sh_name strs 0 t ha with
          ⟨hpa, st, hst, hm⟩ | ⟨h0, _⟩
        · exact ⟨p, List.mem_cons_self p rest, hpa.symm, st, hst, hm⟩
        · exact absurd h0 haz
      · intro h0; exact absurd h0 haz
    · rw [if_neg haz] at h
      have ha0 : a = 0 := by omega
      subst ha0
      have IH := ih t h
      constructor
      · intro ht
        obtain ⟨q, hq, hqa, st, hst, hm⟩ := IH.1 ht
        exact ⟨q, List.mem_cons_of_mem p hq, hqa, st, hst, hm⟩
      · intro ht p2 hp2 hpz st hst
        rcases List.mem_cons.mp hp2 with rfl | hmem
        · rcases scanStrs_inv data p2.sh_addr p2.sh_name strs 0 0 ha with
            ⟨hpa, _, _, _⟩ | ⟨_, hall⟩
          · exact absurd hpa.symm hpz
          · exact hall st hst
        · exact IH.2 ht p2 hmem hpz st hst

theorem mem_progSections (l : List SectionHeader) (p : SectionHeader) :
    p ∈ progSections l ↔ p ∈ l ∧ p.sh_type = 1 := by
  simp [progSections, List.mem_filter]

theorem mem_strSections (l : List SectionHeader) (p : SectionHeader) :
    p ∈ strSections l ↔ p ∈ l ∧ p.sh_type = 3 := by
  simp [strSections, List.mem_filter]

/-- C4: `setup_program` classifies the image as a conformance-test image
(`is_test = true`) if and only if some program-data section header
(`sh_type = 1`) with non-zero `sh_addr` has name bytes, in some
string-table section (`sh_type = 3`) at file offset `sh_offset + sh_name`
within that table's extent, equal to `".tohost"` followed by NUL; in that
case `tohost_addr` is that section's `sh_addr`, otherwise
`is_test = false` and `tohost_addr = 0`. -/
theorem setup_test_detection (emu : Emulator) (data : List Nat)
    (e : Emulator) (h : emu.setup_program data = Except.ok e) :
    ∃ i, parseElf data = Except.ok i ∧
      (e.is_test = true ↔ IsTestImage data i.sections) ∧
      (e.is_test = true → ∃ p, p ∈ i.sections ∧ p.sh_type = 1 ∧
        p.sh_addr = e.tohost_addr ∧ p.sh_addr ≠ 0 ∧
        ∃ st, st ∈ i.sections ∧ st.sh_type = 3 ∧ NameAt data p.sh_name st) ∧
      (e.is_test = false → e.tohost_addr = 0) := by
  obtain ⟨i, t, mmu, hi, hscan, _, he⟩ := setup_ok_inv emu data e h
  subst he
  have hinv := scanProgs_inv data (strSections i.sections)
    (progSections i.sections) t hscan
  refine ⟨i, hi, ?_, ?_, ?_⟩
  · simp only [bne_iff_ne, ne_eq]
    constructor
    · intro ht
      obtain ⟨p, hp, hpa, st, hst, hm⟩ := hinv.1 ht
      obtain ⟨hpmem, hptype⟩ := (mem_progSections _ p).mp hp
      obtain ⟨hstmem, hsttype⟩ := (mem_strSections _ st).mp hst
      exact ⟨p, hpmem, hptype, by rw [hpa]; exact ht, st, hstmem, hsttype,
        (nameAt_iff data p.sh_name st).mpr hm⟩
    · intro hti
      obtain ⟨p, hpmem, hptype, hpz, st, hstmem, hsttype, hname⟩ := hti
      by_contra ht0
      have ht0' : t = 0 := by omega
      exact hinv.2 ht0' p ((mem_progSections _ p).mpr ⟨hpmem, hptype⟩) hpz
        st ((mem_strSections _ st).mpr ⟨hstmem, hsttype⟩)
        ((nameAt_iff data p.sh_name st).mp hname)
  · intro ht
    have ht' : t ≠ 0 := by simpa using ht
    obtain ⟨p, hp, hpa, st, hst, hm⟩ := hinv.1 ht'
    obtain ⟨hpmem, hptype⟩ := (mem_progSections _ p).mp hp
    obtain ⟨hstmem, hsttype⟩ := (mem_strSections _ st).mp hst
    exact ⟨p, hpmem, hptype, hpa, by rw [hpa]; exact ht', st, hstmem,
      hsttype, (nameAt_iff data p.sh_name st).mpr hm⟩
  · intro ht
    simpa using ht

/-- Witness for C4 at the riscv-tests-style image `dTest`, detected as a
test image with `tohost_addr = 0x80001000`. -/
theorem setup_test_detection_witness :
    ∃ i, parseElf dTest = Except.ok i ∧
      (eTest.is_test = true ↔ IsTestImage dTest i.sections) ∧
      (eTest.is_test = true → ∃ p, p ∈ i.sections ∧ p.sh_type = 1 ∧
        p.sh_addr = eTest.tohost_addr ∧ p.sh_addr ≠ 0 ∧
        ∃ st, st ∈ i.sections ∧ st.sh_type = 3 ∧ NameAt dTest p.sh_name st) ∧
      (eTest.is_test = false → eTest.tohost_addr = 0) :=
  setup_test_detection emu0 dTest eTest (by decide)

/-! ## The section-copy loop, related to the claim-side store list -/

theorem getD_of_readByte (data : List Nat) (i b : Nat)
    (h : readByte data i = Except.ok b) : data.getD i 0 = b := by
  have h2 := readByte_ok_inv data i b h
  rw [List.get?_eq_getElem?] at h2
  simp [List.getD, h2]

theorem copyRange_stores (data : List Nat) (a o : Nat) :
    ∀ (c j : Nat) (m m2 : Mmu), copyRange data a o m j c = Except.ok m2 →
      m2.stores = m.stores ++ (List.range c).map
        (fun x => (a + (j + x), data.getD (o + (j + x)) 0)) := by
  intro c
  induction c with
  | zero =>
    intro j m m2 h
    rw [(Except.ok.inj h).symm]
    simp
  | succ c ih =>
    intro j m m2 h
    rw [copyRange] at h
    obtain ⟨b, hb, h⟩ := bind_ok_elim _ _ _ h
    have hrec := ih (j + 1) (m.store_raw (a + j) b) m2 h
    have hb2 : data.getD (o + j) 0 = b := getD_of_readByte data (o + j) b hb
    have e1 : (List.range (c + 1)).map
        (fun x => ((a + (j + x), data.getD (o + (j + x)) 0) : Nat × Nat)) =
        (a + j, data.getD (o + j) 0) :: (List.range c).map
          (fun x => (a + (j + 1 + x), data.getD (o + (j + 1 + x)) 0)) := by
      rw [List.range_succ_eq_map, List.map_cons, List.map_map]
      refine congrArg₂ _ (by simp) ?_
      apply List.map_congr_left
      intro x _
      have e2 : j + (x + 1) = j + 1 + x := by omega
      simp [Function.comp, e2]
    rw [hrec, e1, hb2]
    simp [Mmu.store_raw]

theorem copySections_stores (data : List Nat) :
    ∀ (l : List SectionHeader) (m m2 : Mmu),
      copySections data m l = Except.ok m2 →
      m2.stores = m.stores ++
        (l.filter (fun s => decide (0x80000000 ≤ s.sh_addr) &&
            decide (0 < s.sh_offset) && decide (0 < s.sh_size))).flatMap
          (fun s => (List.range s.sh_size).map
            (fun j => (s.sh_addr + j, data.getD (s.sh_offset + j) 0))) := by
  intro l
  induction l with
  | nil =>
    intro m m2 h
    rw [(Except.ok.inj h).symm]
    simp
  | cons p rest ih =>
    intro m m2 h
    rw [copySections] at h
    by_cases hc : p.sh_addr ≥ 0x80000000 ∧ 0 < p.sh_offset ∧ 0 < p.sh_size
    · rw [if_pos hc] at h
      obtain ⟨m1, hm1, h⟩ := bind_ok_elim _ _ _ h
      have h1 := copyRange_stores data p.sh_addr p.sh_offset p.sh_size 0 m m1 hm1
      have hfil : (p :: rest).filter (fun s => decide (0x80000000 ≤ s.sh_addr) &&
          decide (0 < s.sh_offset) && decide (0 < s.sh_size)) =
          p :: rest.filter (fun s => decide (0x80000000 ≤ s.sh_addr) &&
            decide (0 < s.sh_offset) && decide (0 < s.sh_size)) := by
        rw [List.filter_cons_of_pos]
        simp only [Bool.and_eq_true, decide_eq_true_eq]
        exact ⟨⟨hc.1, hc.2.1⟩, hc.2.2⟩
      rw [ih m1 m2 h, h1, hfil, List.flatMap_cons, ← List.append_assoc]
      refine congrArg₂ _ (congrArg _ ?_) rfl
      apply List.map_congr_left
      intro x _
      simp
    · rw [if_neg hc] at h
      obtain ⟨m1, hm1, h⟩ := bind_ok_elim _ _ _ h
      have hm1e : m1 = m := (Except.ok.inj hm1).symm
      have hfil : (p :: rest).filter (fun s => decide (0x80000000 ≤ s.sh_addr) &&
          decide (0 < s.sh_offset) && decide (0 < s.sh_size)) =
          rest.filter (fun s => decide (0x80000000 ≤ s.sh_addr) &&
            decide (0 < s.sh_offset) && decide (0 < s.sh_size)) := by
        rw [List.filter_cons_of_neg]
        simp only [Bool.and_eq_true, decide_eq_true_eq]
        intro hcc
        exact hc ⟨hcc.1.1, hcc.1.2, hcc.2⟩
      rw [ih m1 m2 h, hfil, hm1e]

/-- C9: `setup_program` copies into physical memory exactly those sections
with `sh_type = 1`, `sh_addr ≥ 0x80000000`, `sh_offset > 0` and
`sh_size > 0` — byte `j` taken from file offset `sh_offset + j` stored via
the raw path at physical address `sh_addr + j`, in order — and issues no
store for any section failing one of these conditions. -/
theorem setup_copies_sections (emu : Emulator) (data : List Nat)
    (e : Emulator) (h : emu.setup_program data = Except.ok e) :
    ∃ i, parseElf data = Except.ok i ∧
      e.cpu.mmu.stores = claimStores data i.sections := by
  obtain ⟨i, t, mmu, hi, _, hcopy, he⟩ := setup_ok_inv emu data e h
  subst he
  refine ⟨i, hi, ?_⟩
  have h1 := copySections_stores data (progSections i.sections) _ mmu hcopy
  simp only [Mmu.init_memory, List.nil_append] at h1
  rw [h1]
  unfold claimStores progSections
  rw [List.filter_filter]
  refine congrArg₂ _ ?_ rfl
  apply List.filter_congr
  intro s _
  cases hts : s.sh_type == 1 <;>
    cases ha : decide (0x80000000 ≤ s.sh_addr) <;>
    cases hof : decide (0 < s.sh_offset) <;>
    cases hsz : decide (0 < s.sh_size) <;> rfl

/-- Witness for C9 at the riscv-tests-style image `dTest`: the eight bytes
of its one qualifying section, in order. -/
theorem setup_copies_sections_witness :
    ∃ i, parseElf dTest = Except.ok i ∧
      eTest.cpu.mmu.stores = claimStores dTest i.sections :=
  setup_copies_sections emu0 dTest eTest (by decide)

/-! ## Dependence of `setup_program` on the endianness byte -/

theorem readByte_set_ne (d : List Nat) (v i : Nat) (h : i ≠ 5) :
    readByte (d.set 5 v) i = readByte d i := by
  unfold readByte
  rw [List.get?_eq_getElem?, List.get?_eq_getElem?,
    List.getElem?_set_ne (by omega)]

theorem readLE_set_high (d : List Nat) (v : Nat) :
    ∀ (n off : Nat), 5 < off →
      readLE (d.set 5 v) off n = readLE d off n := by
  intro n
  induction n with
  | zero => intro off _; rfl
  | succ n ih =>
    intro off hoff
    rw [readLE, readLE, readByte_set_ne d v off (by omega)]
    cases hb : readByte d off with
    | error er => rfl
    | ok b => rw [ok_bind, ok_bind, ih (off + 1) (by omega)]

/-- Counterexample to C8: `dEnd` and `dEnd.set 5 9` differ only at index 5
(the ELF endianness byte), yet `setup_program` produces different emulator
states, because the single program-data section's file range
`[sh_offset, sh_offset + sh_size) = [4, 8)` covers index 5 and the byte is
copied into physical memory. -/
theorem setup_endian_byte_reaches_memory :
    dEnd.get? 5 = some 0 ∧
    emu0.setup_program dEnd ≠ emu0.setup_program (dEnd.set 5 9) := by
  constructor
  · decide
  · decide

/-- C8 (amended): the header-derived configuration is insensitive to the
endianness byte — for two inputs differing only at index 5, whenever both
`setup_program` runs succeed, the selected XLEN and the entry program
counter agree (the endianness byte is read for its bounds effect but its
value never reaches the header fields, which are parsed little-endian
unconditionally from fixed offsets above 5).  Full state equality fails:
see the counterexample, the byte at file offset 5 can reach memory through
a section copy, and likewise the scan and the section-header table can
read it. -/
theorem setup_endian_insensitive_config (data : List Nat) (v : Nat)
    (emu e1 e2 : Emulator)
    (h1 : emu.setup_program data = Except.ok e1)
    (h2 : emu.setup_program (data.set 5 v) = Except.ok e2) :
    e1.cpu.xlen = e2.cpu.xlen ∧ e1.cpu.pc = e2.cpu.pc := by
  obtain ⟨i1, t1, m1, hi1, _, _, he1⟩ := setup_ok_inv emu data e1 h1
  obtain ⟨i2, t2, m2, hi2, _, _, he2⟩ := setup_ok_inv emu (data.set 5 v) e2 h2
  obtain ⟨_, _, _, _, hcls1, _, hent1, _, _, _⟩ := parseElf_ok_inv data i1 hi1
  obtain ⟨_, _, _, _, hcls2, _, hent2, _, _, _⟩ :=
    parseElf_ok_inv (data.set 5 v) i2 hi2
  have hg4 : (data.set 5 v).get? 4 = data.get? 4 := by
    rw [List.get?_eq_getElem?, List.get?_eq_getElem?,
      List.getElem?_set_ne (by omega)]
  have hw : i1.width8 = i2.width8 := by
    rcases hcls1 with ⟨hc1, hw1⟩ | ⟨hc1, hw1⟩ <;>
      rcases hcls2 with ⟨hc2, hw2⟩ | ⟨hc2, hw2⟩
    · rw [hw1, hw2]
    · rw [hg4, hc1] at hc2
      exact absurd (Option.some.inj hc2) (by decide)
    · rw [hg4, hc1] at hc2
      exact absurd (Option.some.inj hc2) (by decide)
    · rw [hw1, hw2]
  rw [readLE_set_high data v i2.width8 0x18 (by omega), ← hw] at hent2
  have hee : i1.e_entry = i2.e_entry :=
    Except.ok.inj (hent1.symm.trans hent2)
  subst he1; subst he2
  constructor
  · show (if i1.width8 == 4 then Xlen.Bit32 else Xlen.Bit64) =
      (if i2.width8 == 4 then Xlen.Bit32 else Xlen.Bit64)
    rw [hw]
  · exact hee

/-- Witness for the amended C8: overwriting the endianness byte of `dGood`
with 7 leaves the configured state unchanged. -/
theorem setup_endian_insensitive_config_witness :
    eGood.cpu.xlen = eGood.cpu.xlen ∧ eGood.cpu.pc = eGood.cpu.pc :=
  setup_endian_insensitive_config dGood 7 emu0 eGood eGood
    (by decide) (by decide)

/-- C10: `setup_program` is partial on malformed input: the empty vector
and the three-byte magic prefix make the very first header reads index out
of bounds; a well-formed 52-byte header whose `e_shoff = 200` with
`e_shnum = 1` makes the section-header parse index out of bounds; and a
string table claiming `sh_offset = 200`, `sh_size = 300` puts the name
position `sh_offset + sh_name = 200` inside the claimed extent but beyond
the 132-byte input, so the `.tohost` scan indexes out of bounds.  In every
case the run aborts with an index panic instead of producing a configured
emulator or a diagnostic. -/
theorem setup_panics_out_of_bounds :
    emu0.setup_program [] = Except.error SetupError.indexOOB ∧
    emu0.setup_program [0x7f, 0x45, 0x4c] = Except.error SetupError.indexOOB ∧
    emu0.setup_program dShoffOOB = Except.error SetupError.indexOOB ∧
    emu0.setup_program dScanOOB = Except.error SetupError.indexOOB := by
  refine ⟨by decide, by decide, by decide, by decide⟩

end Zipper
